import Mathlib

/-!
Verification development for the pts2-node jsonPTS protocol client.

The definitions below are a shallow embedding of the TypeScript sources:
  - `src/core/config.ts`   (parseBool, parseIntOr, Pts2ConfigSchema, loadPts2ConfigFromEnv)
  - `src/core/jsonpts.ts`  (buildEnvelope, parseEnvelope, JsonPtsPacketError data)
  - `src/core/digest.ts`   (splitAuthParams, parseDigestChallenge, pickQop,
                            buildDigestAuthorization)
  - `src/core/Pts2Client.ts` (postWithAuth, execute, setDateTime)

Modelling conventions:
  - JavaScript numbers that the code treats as integers are modelled as `Int`
    (JSON bodies produced by the device carry integral ids; `parseInt` results
    are integral, `NaN` is modelled as `Option.none`).
  - Case conversion (`toLowerCase`/`toUpperCase`) is modelled on ASCII letters,
    which is the range exercised by the protocol tokens the code compares
    against.
  - `crypto.createHash(alg).update(data).digest("hex")` is modelled by an
    abstract function parameter `hashRaw : String → String → String` applied to
    the normalized node algorithm name and the data, and the random
    `cnonce = randomHex(16)` by an explicit `cnonce : String` parameter.
  - The HTTP transport is modelled by a function `resp : Nat → TransportResp`
    giving the response of the n-th POST performed inside one
    `postWithAuth` call.
-/

/-! ## JavaScript string primitives -/

/-- Character class of the JavaScript regexp escape backslash-s and of
string trimming (whitespace and line terminators). -/
def jsSpace (c : Char) : Bool :=
  c == ' ' || c == '\t' || c == '\n' || c == '\r' || c == '\x0b' || c == '\x0c' ||
  c == '\u00A0' || c == '\u1680' || ('\u2000' ≤ c && c ≤ '\u200A') ||
  c == '\u2028' || c == '\u2029' || c == '\u202F' || c == '\u205F' ||
  c == '\u3000' || c == '\uFEFF'

/-- JavaScript line terminators, which the regexp dot does not match. -/
def jsLineTerm (c : Char) : Bool :=
  c == '\n' || c == '\r' || c == '\u2028' || c == '\u2029'

/-- String.prototype.trim: strip leading and trailing whitespace. -/
def jsTrim (s : String) : String :=
  String.mk (((s.data.dropWhile jsSpace).reverse.dropWhile jsSpace).reverse)

/-- toLowerCase, modelled on ASCII letters. -/
def asciiLower (s : String) : String := String.mk (s.data.map Char.toLower)

/-- toUpperCase, modelled on ASCII letters. -/
def asciiUpper (s : String) : String := String.mk (s.data.map Char.toUpper)

/-- String.prototype.split on a single separator character: JavaScript keeps
empty segments and maps the empty string to a single empty segment. -/
def jsSplitAux (sep : Char) : List Char → List Char → List (List Char)
  | [], cur => [cur.reverse]
  | c :: rest, cur =>
    if c = sep then cur.reverse :: jsSplitAux sep rest []
    else jsSplitAux sep rest (c :: cur)

/-- String.prototype.split(sep) for a one character separator. -/
def jsSplitOn (sep : Char) (s : String) : List String :=
  (jsSplitAux sep s.data []).map String.mk

/-- String.prototype.endsWith. -/
def strEndsWith (s suffix : String) : Bool := suffix.data.isSuffixOf s.data

/-- Numeric value of a decimal digit character. -/
def decDigitVal (c : Char) : Nat := c.toNat - 48

/-- Number.parseInt(s, 10): skip leading whitespace, read an optional sign and
then the longest prefix of decimal digits; `none` models `NaN`. -/
def jsParseInt (s : String) : Option Int :=
  let cs := s.data.dropWhile jsSpace
  let signedTail : Int × List Char :=
    match cs with
    | '-' :: t => (-1, t)
    | '+' :: t => (1, t)
    | _ => (1, cs)
  let ds := signedTail.2.takeWhile Char.isDigit
  if ds = [] then none
  else some (signedTail.1 * (ds.foldl (fun a c => a * 10 + decDigitVal c) 0 : Nat))

/-- Lowercase hexadecimal digit, as produced by Number.prototype.toString(16). -/
def hexDigit (n : Nat) : Char :=
  if n < 10 then Char.ofNat (48 + n) else Char.ofNat (87 + n)

/-- Fuelled hexadecimal digit expansion (most significant first). -/
def hexChars : Nat → Nat → List Char
  | 0, _ => []
  | fuel + 1, n =>
    if n < 16 then [hexDigit n] else hexChars fuel (n / 16) ++ [hexDigit (n % 16)]

/-- n.toString(16) for a natural number: lowercase hex, no padding. -/
def hexString (n : Nat) : String := String.mk (hexChars (n + 1) n)

/-- String.prototype.padStart(len, c): pad on the left up to `len`. -/
def padStart (s : String) (len : Nat) (c : Char) : String :=
  String.mk (List.replicate (len - s.length) c) ++ s

/-! ## JSON values -/

/-- JSON values (the `JsonValue` type of jsonpts.ts); numbers are modelled as
integers, the only numeric values the protocol layer manipulates. -/
inductive Json where
  | null
  | bool (b : Bool)
  | num (n : Int)
  | str (s : String)
  | arr (elems : List Json)
  | obj (fields : List (String × Json))

/-- Property lookup on a JSON object (first binding wins). -/
def jsonLookup (k : String) : List (String × Json) → Option Json
  | [] => none
  | (k2, v) :: rest => if k2 = k then some v else jsonLookup k rest

mutual

/-- The JavaScript String(x) coercion on JSON values. -/
def jsToString : Json → String
  | .null => "null"
  | .bool true => "true"
  | .bool false => "false"
  | .num n => toString n
  | .str s => s
  | .arr xs => String.intercalate "," (jsToStringElems xs)
  | .obj _ => "[object Object]"

/-- Array.prototype.toString joins elements with commas; null elements
become the empty string. -/
def jsToStringElems : List Json → List String
  | [] => []
  | j :: rest =>
    (match j with
     | .null => ""
     | other => jsToString other) :: jsToStringElems rest

end

/-- String(x ?? dflt): nullish operands are replaced by the default before
the string coercion. -/
def jsCoalesceString (v : Option Json) (dflt : String) : String :=
  match v with
  | none => dflt
  | some .null => dflt
  | some j => jsToString j

/-! ## config.ts -/

/-- Environment variables consumed by loadPts2ConfigFromEnv; `none` models an
unset variable. -/
structure Pts2Env where
  PTS2_HOST : Option String := none
  PTS2_SECURITY : Option String := none
  PTS2_HTTP_PORT : Option String := none
  PTS2_HTTPS_PORT : Option String := none
  PTS2_AUTH : Option String := none
  PTS2_LOGIN : Option String := none
  PTS2_PASSWORD : Option String := none
  PTS2_TIMEOUT_MS : Option String := none
  PTS2_TLS_INSECURE : Option String := none

/-- The Pts2Config record (after schema validation). -/
structure Pts2Config where
  host : String
  security : String
  httpPort : Int
  httpsPort : Int
  auth : String
  login : String
  password : String
  timeoutMs : Int
  tlsInsecure : Bool
deriving Repr

/-- config.ts parseBool. -/
def parseBool (v : Option String) (fallback : Bool) : Bool :=
  match v with
  | none => fallback
  | some s =>
    let norm := asciiLower (jsTrim s)
    if norm ∈ ["1", "true", "yes", "y", "on"] then true
    else if norm ∈ ["0", "false", "no", "n", "off"] then false
    else fallback

/-- config.ts parseIntOr; the JavaScript guard `!v` also treats the empty
string as absent. -/
def parseIntOr (v : Option String) (fallback : Int) : Int :=
  match v with
  | none => fallback
  | some s =>
    if s = "" then fallback
    else match jsParseInt s with
      | some n => n
      | none => fallback

/-- Pts2ConfigSchema.parse: zod validation of the assembled record.  host needs
at least one character; security and auth are enums; ports and timeout must be
positive integers.  login and password are plain strings (no minimum length). -/
def validatePts2Config (c : Pts2Config) : Except String Pts2Config :=
  if c.host.length < 1 then .error "host: String must contain at least 1 character(s)"
  else if ¬ (c.security = "http" ∨ c.security = "https") then .error "security: invalid enum value"
  else if ¬ (0 < c.httpPort) then .error "httpPort: must be positive"
  else if ¬ (0 < c.httpsPort) then .error "httpsPort: must be positive"
  else if ¬ (c.auth = "basic" ∨ c.auth = "digest") then .error "auth: invalid enum value"
  else if ¬ (0 < c.timeoutMs) then .error "timeoutMs: must be positive"
  else .ok c

/-- config.ts loadPts2ConfigFromEnv. -/
def loadPts2ConfigFromEnv (env : Pts2Env) : Except String Pts2Config :=
  validatePts2Config
    { host := env.PTS2_HOST.getD ""
      security := asciiLower (env.PTS2_SECURITY.getD "https")
      httpPort := parseIntOr env.PTS2_HTTP_PORT 80
      httpsPort := parseIntOr env.PTS2_HTTPS_PORT 443
      auth := asciiLower (env.PTS2_AUTH.getD "digest")
      login := env.PTS2_LOGIN.getD ""
      password := env.PTS2_PASSWORD.getD ""
      timeoutMs := parseIntOr env.PTS2_TIMEOUT_MS 15000
      tlsInsecure := parseBool env.PTS2_TLS_INSECURE true }

/-! ## jsonpts.ts -/

/-- A request packet. -/
structure JsonPtsPacketRequest where
  type : String
  data : Option Json := none

/-- A decoded response packet.  `code` is `none` when the Code field is
absent and `some none` when present but not parseable as an integer (NaN). -/
structure JsonPtsPacketResponse where
  id : Int
  type : Option String := none
  error : Bool
  code : Option (Option Int) := none
  message : Option String := none
  data : Option Json := none

instance : Inhabited JsonPtsPacketResponse := ⟨{ id := 0, error := true }⟩

/-- The object fields of one encoded request packet: Id, Type and, only when
the request carries data, Data. -/
def encodeFields (i : Nat) (p : JsonPtsPacketRequest) : List (String × Json) :=
  match p.data with
  | some d => [("Id", .num i), ("Type", .str p.type), ("Data", d)]
  | none => [("Id", .num i), ("Type", .str p.type)]

/-- The Packets array of buildEnvelope: zero-based sequential ids. -/
def encodePackets (i : Nat) : List JsonPtsPacketRequest → List Json
  | [] => []
  | p :: rest => .obj (encodeFields i p) :: encodePackets (i + 1) rest

/-- jsonpts.ts buildEnvelope. -/
def buildEnvelope (packets : List JsonPtsPacketRequest) : Json :=
  .obj [("Protocol", .str "jsonPTS"), ("Packets", .arr (encodePackets 0 packets))]

/-- Map with an exception monad, mirroring Array.prototype.map over a callback
that can throw: the first failing element aborts the whole map. -/
def mapME (f : α → Except ε β) : List α → Except ε (List β)
  | [] => .ok []
  | x :: xs =>
    match f x with
    | .error e => .error e
    | .ok y =>
      match mapME f xs with
      | .error e => .error e
      | .ok ys => .ok (y :: ys)

/-- The zod JsonPtsResponseSchema element check: every packet must be a record. -/
def asRecord : Json → Except String (List (String × Json))
  | .obj fs => .ok fs
  | _ => .error "Invalid envelope: packet is not a record"

/-- Extraction of the packet id: a JSON number is taken as is, anything else
goes through String(p.Id ?? "") and parseInt; `none` models NaN. -/
def packetId (fs : List (String × Json)) : Option Int :=
  match jsonLookup "Id" fs with
  | some (.num n) => some n
  | other => jsParseInt (jsCoalesceString other "")

/-- Coercion of the Error field: booleans are kept, anything else is compared
(as a lowercased string, defaulting to "false") against "false". -/
def packetErrorFlag (fs : List (String × Json)) : Bool :=
  match jsonLookup "Error" fs with
  | some (.bool b) => b
  | other => asciiLower (jsCoalesceString other "false") ≠ "false"

/-- Decoding of one response packet record. -/
def parsePacket (fs : List (String × Json)) : Except String JsonPtsPacketResponse :=
  match packetId fs with
  | none => .error "Response packet missing Id"
  | some i =>
    .ok { id := i
          type := (jsonLookup "Type" fs).map jsToString
          error := packetErrorFlag fs
          code := (jsonLookup "Code" fs).map (fun j => jsParseInt (jsToString j))
          message := (jsonLookup "Message" fs).map jsToString
          data := jsonLookup "Data" fs }

/-- Stable insertion into a list sorted by id (insertion before the first
element with an id that is not smaller). -/
def insertById (p : JsonPtsPacketResponse) :
    List JsonPtsPacketResponse → List JsonPtsPacketResponse
  | [] => [p]
  | q :: rest => if p.id ≤ q.id then p :: q :: rest else q :: insertById p rest

/-- packets.sort((a, b) => a.id - b.id): JavaScript sort is stable and sorts
ascending under this comparator, which determines its result uniquely; this
stable insertion sort computes the same result. -/
def sortPacketsById : List JsonPtsPacketResponse → List JsonPtsPacketResponse
  | [] => []
  | p :: rest => insertById p (sortPacketsById rest)

/-- jsonpts.ts parseEnvelope: zod schema (object, string Protocol, array of
records Packets), then the protocol check, then per-packet decoding, then the
stable ascending sort by id. -/
def parseEnvelope (raw : Json) : Except String (List JsonPtsPacketResponse) :=
  match raw with
  | .obj fs =>
    match jsonLookup "Protocol" fs with
    | some (.str protocol) =>
      match jsonLookup "Packets" fs with
      | some (.arr xs) =>
        match mapME asRecord xs with
        | .error e => .error e
        | .ok records =>
          if protocol ≠ "jsonPTS" then
            .error ("Protocol mismatch: expected jsonPTS, got " ++ protocol)
          else
            match mapME parsePacket records with
            | .error e => .error e
            | .ok pkts => .ok (sortPacketsById pkts)
      | _ => .error "Invalid envelope: Packets must be an array"
    | _ => .error "Invalid envelope: Protocol must be a string"
  | _ => .error "Invalid envelope: expected object"

/-! ## digest.ts -/

/-- Parsed Digest challenge attributes.  The source field named after the
fifth keyword of RFC 2617 (the server-opaque blob) is called `opaq` here. -/
structure DigestChallenge where
  realm : Option String := none
  nonce : Option String := none
  qop : Option String := none
  opaq : Option String := none
  algorithm : Option String := none
  charset : Option String := none
deriving DecidableEq, Repr

/-- One step of the splitAuthParams scan: toggle the quote flag on a double
quote, split on commas outside quotes, otherwise accumulate. -/
def splitAuthParamsAux : List Char → Bool → List Char → List String → List String
  | [], _, cur, out =>
    let t := jsTrim (String.mk cur.reverse)
    if t ≠ "" then (t :: out).reverse else out.reverse
  | ch :: rest, inQuotes, cur, out =>
    let inQuotes2 := if ch = '"' then !inQuotes else inQuotes
    if ch = ',' ∧ ¬ inQuotes2 then
      splitAuthParamsAux rest inQuotes2 [] (jsTrim (String.mk cur.reverse) :: out)
    else
      splitAuthParamsAux rest inQuotes2 (ch :: cur) out

/-- digest.ts splitAuthParams: split on commas not inside quotes; every
segment is trimmed, and only the final segment is dropped when blank. -/
def splitAuthParams (header : String) : List String :=
  splitAuthParamsAux header.data false [] []

/-- Assignment of one parsed key to the challenge record; keys other than the
six known attributes are ignored. -/
def setChallengeField (c : DigestChallenge) (k v : String) : DigestChallenge :=
  if k = "realm" then { c with realm := some v }
  else if k = "nonce" then { c with nonce := some v }
  else if k = "qop" then { c with qop := some v }
  else if k = "opaque" then { c with opaq := some v }
  else if k = "algorithm" then { c with algorithm := some v }
  else if k = "charset" then { c with charset := some v }
  else c

/-- Index of the first "=" in the segment, -1 when absent (String.indexOf). -/
def eqIndex (s : String) : Int :=
  match s.data.findIdx? (· == '=') with
  | some i => (i : Int)
  | none => -1

/-- Processing of one key=value segment: segments without "=" past position
zero are skipped, keys and values are trimmed, and a value enclosed in double
quotes is unquoted. -/
def applyAuthParam (c : DigestChallenge) (part : String) : DigestChallenge :=
  let eq := eqIndex part
  if eq ≤ 0 then c
  else
    let k := jsTrim (String.mk (part.data.take eq.toNat))
    let v0 := jsTrim (String.mk (part.data.drop (eq.toNat + 1)))
    let quoted := v0.data.head? = some '"' ∧ v0.data.getLast? = some '"'
    let v := if quoted then String.mk (v0.data.drop 1).dropLast else v0
    setChallengeField c k v

/-- The literal Digest token, compared case-insensitively, character by
character. -/
def charCi (c lo up : Char) : Bool := c == lo || c == up

/-- digestWordCi cs is true exactly when cs is a six character spelling of the
word digest, in any case. -/
def digestWordCi : List Char → Bool
  | [c0, c1, c2, c3, c4, c5] =>
    charCi c0 'd' 'D' && charCi c1 'i' 'I' && charCi c2 'g' 'G' &&
    charCi c3 'e' 'E' && charCi c4 's' 'S' && charCi c5 't' 'T'
  | _ => false

/-- The JavaScript regexp match of wwwAuthenticate against
the anchored pattern: optional whitespace, the case-insensitive word Digest,
at least one whitespace character, then a captured remainder that the
(non-dotall) dot must be able to cross, so it may not contain a line
terminator.  Returns the captured remainder. -/
def digestChallengeRest (s : String) : Option String :=
  let afterLead := s.data.dropWhile jsSpace
  if digestWordCi (afterLead.take 6) then
    let afterWord := afterLead.drop 6
    let ws := afterWord.takeWhile jsSpace
    let rest := afterWord.dropWhile jsSpace
    if ws ≠ [] ∧ rest.all (fun c => ! jsLineTerm c) = true then some (String.mk rest)
    else none
  else none

/-- digest.ts parseDigestChallenge. -/
def parseDigestChallenge (wwwAuthenticate : String) : Except String DigestChallenge :=
  match digestChallengeRest wwwAuthenticate with
  | none => .error "Not a Digest challenge"
  | some rest => .ok ((splitAuthParams rest).foldl applyAuthParam {})

/-- digest.ts pickQop: prefer auth, else the first listed token; an absent or
empty qop (or a list of blank tokens) selects no qop at all. -/
def pickQop (qop : Option String) : Option String :=
  match qop with
  | none => none
  | some s =>
    if s = "" then none
    else
      let parts := ((jsSplitOn ',' s).map jsTrim).filter (· ≠ "")
      if "auth" ∈ parts then some "auth" else parts.head?

/-- digest.ts hash: normalization of the algorithm token to a node crypto
algorithm name, with MD5 as the fallback. -/
def nodeAlgOf (algorithm : String) : String :=
  let norm := asciiUpper algorithm
  if norm = "MD5" ∨ norm = "MD5-SESS" then "md5"
  else if norm = "SHA-256" ∨ norm = "SHA-256-SESS" then "sha256"
  else "md5"

/-- digest.ts hash applied through the abstract digest function `hashRaw`
(crypto.createHash(nodeAlg).update(data).digest("hex")). -/
def hashD (hashRaw : String → String → String) (algorithm data : String) : String :=
  hashRaw (nodeAlgOf algorithm) data

/-- The nonce count as sent on the wire: lowercase hex padded on the left with
zeros to (at least) eight digits. -/
def formatNc (nc : Nat) : String := padStart (hexString nc) 8 '0'

/-- Parameters of buildDigestAuthorization. -/
structure DigestAuthParams where
  username : String
  password : String
  method : String
  uri : String
  challenge : DigestChallenge
  nc : Nat

/-- HA1 of the Digest computation: hash(username:realm:password), rehashed
with the nonce and the client nonce for session algorithm variants. -/
def digestHa1 (hashRaw : String → String → String) (cnonce : String)
    (p : DigestAuthParams) : String :=
  let algorithm := asciiUpper (p.challenge.algorithm.getD "MD5")
  let ha1a := hashD hashRaw algorithm
    (p.username ++ ":" ++ p.challenge.realm.getD "" ++ ":" ++ p.password)
  if strEndsWith algorithm "-SESS" then
    hashD hashRaw algorithm (ha1a ++ ":" ++ p.challenge.nonce.getD "" ++ ":" ++ cnonce)
  else ha1a

/-- HA2 of the Digest computation: hash(method:uri). -/
def digestHa2 (hashRaw : String → String → String) (p : DigestAuthParams) : String :=
  hashD hashRaw (asciiUpper (p.challenge.algorithm.getD "MD5")) (p.method ++ ":" ++ p.uri)

/-- The response digest: the six part formula with nonce, formatted nonce
count, client nonce and qop when a qop is selected, the legacy two part
formula otherwise. -/
def digestResponse (hashRaw : String → String → String) (cnonce : String)
    (p : DigestAuthParams) : String :=
  let algorithm := asciiUpper (p.challenge.algorithm.getD "MD5")
  let nonce := p.challenge.nonce.getD ""
  match pickQop p.challenge.qop with
  | some q => hashD hashRaw algorithm
      (digestHa1 hashRaw cnonce p ++ ":" ++ nonce ++ ":" ++ formatNc p.nc ++ ":" ++
       cnonce ++ ":" ++ q ++ ":" ++ digestHa2 hashRaw p)
  | none => hashD hashRaw algorithm
      (digestHa1 hashRaw cnonce p ++ ":" ++ nonce ++ ":" ++ digestHa2 hashRaw p)

/-- The comma-separated parts of the Authorization header value built by
buildDigestAuthorization: the five mandatory fields, then opaque and charset
when present and nonempty, the algorithm token verbatim when given, and the
qop, nc and cnonce fields only when a qop was selected. -/
def digestAuthParts (hashRaw : String → String → String) (cnonce : String)
    (p : DigestAuthParams) : List String :=
  ["username=\"" ++ p.username ++ "\"",
   "realm=\"" ++ p.challenge.realm.getD "" ++ "\"",
   "nonce=\"" ++ p.challenge.nonce.getD "" ++ "\"",
   "uri=\"" ++ p.uri ++ "\"",
   "response=\"" ++ digestResponse hashRaw cnonce p ++ "\""]
  ++ (match p.challenge.opaq with
      | some o => if o ≠ "" then ["opaque=\"" ++ o ++ "\""] else []
      | none => [])
  ++ (match p.challenge.charset with
      | some cs => if cs ≠ "" then ["charset=\"" ++ cs ++ "\""] else []
      | none => [])
  ++ (match p.challenge.algorithm with
      | some a => if a ≠ "" then ["algorithm=" ++ a] else []
      | none => [])
  ++ (match pickQop p.challenge.qop with
      | some q => ["qop=" ++ q, "nc=" ++ formatNc p.nc, "cnonce=\"" ++ cnonce ++ "\""]
      | none => [])

/-- digest.ts buildDigestAuthorization. -/
def buildDigestAuthorization (hashRaw : String → String → String) (cnonce : String)
    (p : DigestAuthParams) : String :=
  "Digest " ++ String.intercalate ", " (digestAuthParts hashRaw cnonce p)

/-! ## Pts2Client.ts -/

/-- UTF-8 encoding of one character, as Buffer.from(s, "utf8") produces. -/
def utf8EncodeCharM (c : Char) : List Nat :=
  let n := c.toNat
  if n < 128 then [n]
  else if n < 2048 then [192 + n / 64, 128 + n % 64]
  else if n < 65536 then [224 + n / 4096, 128 + n / 64 % 64, 128 + n % 64]
  else [240 + n / 262144, 128 + n / 4096 % 64, 128 + n / 64 % 64, 128 + n % 64]

/-- UTF-8 byte sequence of a string. -/
def utf8Bytes (s : String) : List Nat := (s.data.map utf8EncodeCharM).flatten

/-- The base64 alphabet. -/
def base64Digit (n : Nat) : Char :=
  "ABCDEFGHIJKLMNOPQRSTUVWXYZabcdefghijklmnopqrstuvwxyz0123456789+/".data.getD n 'A'

/-- Standard base64 of a byte list, with padding. -/
def base64Encode : List Nat → String
  | [] => ""
  | [a] => String.mk [base64Digit (a / 4), base64Digit (a % 4 * 16), '=', '=']
  | [a, b] =>
    String.mk [base64Digit (a / 4), base64Digit (a % 4 * 16 + b / 16),
               base64Digit (b % 16 * 4), '=']
  | a :: b :: c :: rest =>
    String.mk [base64Digit (a / 4), base64Digit (a % 4 * 16 + b / 16),
               base64Digit (b % 16 * 4 + c / 64), base64Digit (c % 64)]
    ++ base64Encode rest

/-- Pts2Client.basicAuthHeader. -/
def basicAuthHeader (cfg : Pts2Config) : String :=
  "Basic " ++ base64Encode (utf8Bytes (cfg.login ++ ":" ++ cfg.password))

/-- What the transport does on one POST: an HTTP 401 carrying an optional
WWW-Authenticate header, a JSON body, or a thrown failure (network, timeout,
bad status, non-JSON body). -/
inductive TransportResp where
  | unauthorized (wwwAuthenticate : Option String)
  | ok (body : Json)
  | err (message : String)

/-- One recorded HTTP POST: the JSON body sent and the Authorization header
attached, if any. -/
structure Call where
  body : Json
  authorization : Option String

/-- The value postJson resolves with: either the parsed JSON body or the
sentinel object marking a 401 to be handled by postWithAuth. -/
inductive PostOutcome where
  | json (j : Json)
  | unauthorized (wwwAuthenticate : Option String)

/-- Conversion of a transport response to the postJson result. -/
def postJsonOutcome : TransportResp → Except String PostOutcome
  | .unauthorized w => .ok (.unauthorized w)
  | .ok j => .ok (.json j)
  | .err m => .error m

/-- Pts2Client.postWithAuth, returning the outcome, the digest nonce count
after the call, and the trace of POSTs performed.  `resp n` is the response of
the n-th POST of this call; the same body is sent on each POST. -/
def postWithAuth (cfg : Pts2Config) (hashRaw : String → String → String)
    (cnonce : String) (nc : Nat) (resp : Nat → TransportResp) (body : Json) :
    Except String PostOutcome × Nat × List Call :=
  if cfg.auth = "basic" then
    (postJsonOutcome (resp 0), nc, [⟨body, some (basicAuthHeader cfg)⟩])
  else
    match resp 0 with
    | .err m => (.error m, nc, [⟨body, none⟩])
    | .ok j => (.ok (.json j), nc, [⟨body, none⟩])
    | .unauthorized none =>
      (.error "401 without WWW-Authenticate header", nc, [⟨body, none⟩])
    | .unauthorized (some w) =>
      match parseDigestChallenge w with
      | .error e => (.error e, nc, [⟨body, none⟩])
      | .ok challenge =>
        let authz := buildDigestAuthorization hashRaw cnonce
          { username := cfg.login, password := cfg.password, method := "POST",
            uri := "/jsonPTS", challenge := challenge, nc := nc + 1 }
        (postJsonOutcome (resp 1), nc + 1, [⟨body, none⟩, ⟨body, some authz⟩])

/-- The typed failures of Pts2Client.execute: generic errors (transport,
envelope parsing), the two correlation errors with the values their messages
name, and the JsonPtsPacketError carrying the offending packet. -/
inductive ExecuteError where
  | generic (message : String)
  | countMismatch (expected actual : Nat)
  | idMismatch (index : Nat) (got : Int)
  | packetError (packet : JsonPtsPacketResponse)

/-- The correlation loop of execute: the first index whose packet id differs
from its position, together with the id found there. -/
def firstIdMismatch : Nat → List JsonPtsPacketResponse → Option (Nat × Int)
  | _, [] => none
  | i, p :: rest => if p.id ≠ (i : Int) then some (i, p.id) else firstIdMismatch (i + 1) rest

/-- The validation stage of Pts2Client.execute on the decoded response list:
count correlation, id correlation, then surfacing of the first error-flagged
packet; only a fully clean batch is returned. -/
def executeValidate (requests : List JsonPtsPacketRequest)
    (parsed : List JsonPtsPacketResponse) :
    Except ExecuteError (List JsonPtsPacketResponse) :=
  if parsed.length ≠ requests.length then
    .error (.countMismatch requests.length parsed.length)
  else
    match firstIdMismatch 0 parsed with
    | some (i, got) => .error (.idMismatch i got)
    | none =>
      match parsed.find? (fun p => p.error) with
      | some p => .error (.packetError p)
      | none => .ok parsed

/-- Pts2Client.execute: build the envelope, post it with authentication,
decode the response envelope, and validate.  A 401 outcome that reaches this
layer is the sentinel object, which fails the envelope schema exactly as any
object without a Protocol field does. -/
def clientExecute (cfg : Pts2Config) (hashRaw : String → String → String)
    (cnonce : String) (nc : Nat) (resp : Nat → TransportResp)
    (packets : List JsonPtsPacketRequest) :
    Except ExecuteError (List JsonPtsPacketResponse) × Nat × List Call :=
  match postWithAuth cfg hashRaw cnonce nc resp (buildEnvelope packets) with
  | (.error m, nc2, calls) => (.error (.generic m), nc2, calls)
  | (.ok (.unauthorized _), nc2, calls) =>
    (.error (.generic "Invalid envelope: Protocol must be a string"), nc2, calls)
  | (.ok (.json j), nc2, calls) =>
    match parseEnvelope j with
    | .error m => (.error (.generic m), nc2, calls)
    | .ok parsed => (executeValidate packets parsed, nc2, calls)

/-- Pts2Client.setDateTime: one SetDateTime packet; the result is the negation
of the error flag of the (single) response packet. -/
def setDateTime (cfg : Pts2Config) (hashRaw : String → String → String)
    (cnonce : String) (nc : Nat) (resp : Nat → TransportResp)
    (dateTime : String) (utcOffset : Int) (autoSynchronize : Bool) :
    Except ExecuteError Bool × Nat × List Call :=
  let data := Json.obj [("DateTime", .str dateTime), ("UTCOffset", .num utcOffset),
                        ("AutoSynchronize", .bool autoSynchronize)]
  match clientExecute cfg hashRaw cnonce nc resp [{ type := "SetDateTime", data := some data }] with
  | (.error e, nc2, calls) => (.error e, nc2, calls)
  | (.ok ps, nc2, calls) => (.ok !(ps.headD default).error, nc2, calls)

/-! ## Lemmas about the stable sort -/

theorem insertById_perm (p : JsonPtsPacketResponse) (l : List JsonPtsPacketResponse) :
    List.Perm (insertById p l) (p :: l) := by
  induction l with
  | nil => exact List.Perm.refl _
  | cons q rest ih =>
    by_cases h : p.id ≤ q.id
    · simp [insertById, h]
    · simp only [insertById, if_neg h]
      exact (List.Perm.cons q ih).trans (List.Perm.swap p q rest)

theorem sortPacketsById_perm (l : List JsonPtsPacketResponse) :
    List.Perm (sortPacketsById l) l := by
  induction l with
  | nil => exact List.Perm.refl _
  | cons p rest ih =>
    exact (insertById_perm p (sortPacketsById rest)).trans (List.Perm.cons p ih)

theorem insertById_pairwise {l : List JsonPtsPacketResponse}
    (hl : l.Pairwise (fun a b => a.id ≤ b.id)) (p : JsonPtsPacketResponse) :
    (insertById p l).Pairwise (fun a b => a.id ≤ b.id) := by
  induction l with
  | nil => simp [insertById]
  | cons q rest ih =>
    rcases List.pairwise_cons.mp hl with ⟨hq, hrest⟩
    by_cases h : p.id ≤ q.id
    · simp only [insertById, if_pos h]
      refine List.pairwise_cons.mpr ⟨?_, hl⟩
      intro b hb
      rcases List.mem_cons.mp hb with hb | hb
      · exact hb ▸ h
      · exact le_trans h (hq b hb)
    · simp only [insertById, if_neg h]
      refine List.pairwise_cons.mpr ⟨?_, ih hrest⟩
      intro b hb
      have hb2 : b ∈ p :: rest := (insertById_perm p rest).mem_iff.mp hb
      rcases List.mem_cons.mp hb2 with hb2 | hb2
      · exact hb2 ▸ le_of_not_le h
      · exact hq b hb2

theorem sortPacketsById_pairwise (l : List JsonPtsPacketResponse) :
    (sortPacketsById l).Pairwise (fun a b => a.id ≤ b.id) := by
  induction l with
  | nil => simp [sortPacketsById]
  | cons p rest ih => exact insertById_pairwise ih p

theorem sortPacketsById_eq_self {l : List JsonPtsPacketResponse}
    (hl : l.Pairwise (fun a b => a.id ≤ b.id)) : sortPacketsById l = l := by
  induction l with
  | nil => rfl
  | cons p rest ih =>
    rcases List.pairwise_cons.mp hl with ⟨hp, hrest⟩
    show insertById p (sortPacketsById rest) = p :: rest
    rw [ih hrest]
    cases rest with
    | nil => rfl
    | cons q rest2 =>
      have hle : p.id ≤ q.id := hp q (List.mem_cons_self q rest2)
      simp [insertById, hle]

instance : IsAntisymm JsonPtsPacketResponse (fun a b => a.id < b.id) :=
  ⟨fun a _ h1 h2 => absurd (lt_trans h1 h2) (lt_irrefl a.id)⟩

/-- Two sorted permutations with pairwise distinct ids are equal. -/
theorem sorted_perm_nodup_eq {l1 l2 : List JsonPtsPacketResponse}
    (hperm : List.Perm l1 l2) (h1 : l1.Pairwise (fun a b => a.id ≤ b.id))
    (h2 : l2.Pairwise (fun a b => a.id ≤ b.id))
    (hnd : (l1.map (fun p => p.id)).Nodup) : l1 = l2 := by
  have hnd2 : (l2.map (fun p => p.id)).Nodup := (hperm.map (fun p => p.id)).nodup hnd
  have hne1 : l1.Pairwise (fun a b => a.id ≠ b.id) := List.pairwise_map.mp hnd
  have hne2 : l2.Pairwise (fun a b => a.id ≠ b.id) := List.pairwise_map.mp hnd2
  have hlt1 : l1.Pairwise (fun a b => a.id < b.id) :=
    (h1.and hne1).imp (fun h => lt_of_le_of_ne h.1 h.2)
  have hlt2 : l2.Pairwise (fun a b => a.id < b.id) :=
    (h2.and hne2).imp (fun h => lt_of_le_of_ne h.1 h.2)
  exact List.eq_of_perm_of_sorted hperm hlt1 hlt2

/-! ## Lemmas about mapME -/

/-- Value of an Except, with a default for the error case. -/
def exceptGetD : Except ε α → α → α
  | .ok a, _ => a
  | .error _, d => d

theorem mapME_ok_map {f : α → Except ε β} (d : β) :
    ∀ {xs : List α} {ys : List β}, mapME f xs = .ok ys →
      ys = xs.map (fun x => exceptGetD (f x) d) := by
  intro xs
  induction xs with
  | nil => intro ys h; cases h; rfl
  | cons x rest ih =>
    intro ys h
    simp only [mapME] at h
    cases hfx : f x with
    | error e => rw [hfx] at h; exact Except.noConfusion h
    | ok y =>
      rw [hfx] at h
      cases hrec : mapME f rest with
      | error e => rw [hrec] at h; exact Except.noConfusion h
      | ok ys2 =>
        rw [hrec] at h
        cases h
        simp [List.map_cons, hfx, exceptGetD, ih hrec]

theorem mapME_ok_forall {f : α → Except ε β} :
    ∀ {xs : List α} {ys : List β}, mapME f xs = .ok ys →
      ∀ x ∈ xs, ∃ y, f x = .ok y := by
  intro xs
  induction xs with
  | nil => intro ys _ x hx; exact absurd hx (List.not_mem_nil x)
  | cons a rest ih =>
    intro ys h x hx
    simp only [mapME] at h
    cases hfa : f a with
    | error e => rw [hfa] at h; exact Except.noConfusion h
    | ok y =>
      rw [hfa] at h
      cases hrec : mapME f rest with
      | error e => rw [hrec] at h; exact Except.noConfusion h
      | ok ys2 =>
        rcases List.mem_cons.mp hx with hx | hx
        · exact ⟨y, hx ▸ hfa⟩
        · exact ih hrec x hx

theorem mapME_error_of_failure {f : α → Except ε β} {x : α} :
    ∀ {xs : List α}, x ∈ xs → (∀ y, f x ≠ .ok y) →
      ∃ e, mapME f xs = .error e := by
  intro xs
  induction xs with
  | nil => intro hx; exact absurd hx (List.not_mem_nil x)
  | cons a rest ih =>
    intro hx hfail
    rcases List.mem_cons.mp hx with hx | hx
    · subst hx
      cases hfx : f x with
      | error e => exact ⟨e, by simp [mapME, hfx]⟩
      | ok y => exact absurd hfx (hfail y)
    · cases hfa : f a with
      | error e => exact ⟨e, by simp [mapME, hfa]⟩
      | ok y =>
        rcases ih hx hfail with ⟨e, he⟩
        exact ⟨e, by simp [mapME, hfa, he]⟩

theorem mapME_length {f : α → Except ε β} {xs : List α} {ys : List β} [Inhabited β]
    (h : mapME f xs = .ok ys) : ys.length = xs.length := by
  rw [mapME_ok_map default h]; simp

/-! ## Lemmas about the correlation loop -/

theorem firstIdMismatch_none_iff :
    ∀ (l : List JsonPtsPacketResponse) (k : Nat),
      firstIdMismatch k l = none ↔
        ∀ i, (h : i < l.length) → l[i].id = ((k + i : Nat) : Int) := by
  intro l
  induction l with
  | nil => intro k; simp [firstIdMismatch]
  | cons p rest ih =>
    intro k
    simp only [firstIdMismatch]
    by_cases hp : p.id = (k : Int)
    · rw [if_neg (by simp [hp])]
      rw [ih (k + 1)]
      constructor
      · intro h i hi
        cases i with
        | zero => simpa using hp
        | succ j =>
          have hj : j < rest.length := Nat.lt_of_succ_lt_succ hi
          have h2 := h j hj
          simp only [List.getElem_cons_succ]
          omega
      · intro h i hi
        have h2 := h (i + 1) (Nat.succ_lt_succ hi)
        simp only [List.getElem_cons_succ] at h2
        omega
    · rw [if_pos (by simp [hp])]
      constructor
      · intro h; exact Option.noConfusion h
      · intro h
        have h0 := h 0 (Nat.succ_pos rest.length)
        simp at h0
        exact absurd h0 hp

theorem pairwise_of_ids_indexed :
    ∀ (l : List JsonPtsPacketResponse) (k : Nat),
      (∀ i, (h : i < l.length) → l[i].id = ((k + i : Nat) : Int)) →
      l.Pairwise (fun a b => a.id ≤ b.id) := by
  intro l
  induction l with
  | nil => intro k _; exact List.Pairwise.nil
  | cons p rest ih =>
    intro k h
    refine List.pairwise_cons.mpr ⟨?_, ih (k + 1) ?_⟩
    · intro b hb
      rcases List.mem_iff_getElem.mp hb with ⟨j, hj, hbj⟩
      have hjid := h (j + 1) (Nat.succ_lt_succ hj)
      have hpid := h 0 (Nat.succ_pos rest.length)
      simp at hpid
      simp only [List.getElem_cons_succ] at hjid
      rw [hbj] at hjid
      omega
    · intro i hi
      have h2 := h (i + 1) (Nat.succ_lt_succ hi)
      simp only [List.getElem_cons_succ] at h2
      omega

theorem find?_min_of_pairwise {l : List JsonPtsPacketResponse}
    {pred : JsonPtsPacketResponse → Bool} {p : JsonPtsPacketResponse}
    (hpw : l.Pairwise (fun a b => a.id ≤ b.id)) (hfind : l.find? pred = some p) :
    ∀ q ∈ l, pred q → p.id ≤ q.id := by
  induction l with
  | nil => exact absurd hfind (by simp)
  | cons a rest ih =>
    rcases List.pairwise_cons.mp hpw with ⟨ha, hrest⟩
    intro q hq hpredq
    cases hpa : pred a with
    | true =>
      rw [List.find?_cons_of_pos _ hpa] at hfind
      cases hfind
      rcases List.mem_cons.mp hq with hq | hq
      · exact hq ▸ le_refl p.id
      · exact ha q hq
    | false =>
      rw [List.find?_cons_of_neg _ (by simp [hpa])] at hfind
      rcases List.mem_cons.mp hq with hq | hq
      · rw [hq] at hpredq; rw [hpredq] at hpa; exact Bool.noConfusion hpa
      · exact ih hrest hfind q hq hpredq

/-! ## Inversion of parseEnvelope -/

/-- Whether an Except is an error. -/
def exceptIsError : Except ε α → Bool
  | .error _ => true
  | .ok _ => false

/-- Whether an Except is a success. -/
def exceptIsOk : Except ε α → Bool
  | .ok _ => true
  | .error _ => false

theorem parseEnvelope_ok_inv {raw : Json} {ps : List JsonPtsPacketResponse}
    (h : parseEnvelope raw = .ok ps) :
    ∃ fs xs records pkts,
      raw = .obj fs ∧
      jsonLookup "Protocol" fs = some (.str "jsonPTS") ∧
      jsonLookup "Packets" fs = some (.arr xs) ∧
      mapME asRecord xs = .ok records ∧
      mapME parsePacket records = .ok pkts ∧
      ps = sortPacketsById pkts := by
  unfold parseEnvelope at h
  repeat' split at h
  any_goals exact Except.noConfusion h
  rename_i a1 fs a2 protocol hP a3 xs hK a4 records hR hproto a5 pkts hM
  cases h
  have hpr : protocol = "jsonPTS" := not_not.mp hproto
  exact ⟨fs, xs, records, pkts, rfl, hpr ▸ hP, hK, hR, hM, rfl⟩

/-! ## C1: the TLS-insecure flag defaults to true when unset -/

/-- An environment that sets only the controller host and leaves every other
variable, in particular PTS2_TLS_INSECURE, unset. -/
def envHostOnly : Pts2Env := { PTS2_HOST := some "192.168.1.117" }

/-- C1: with PTS2_TLS_INSECURE absent from the environment, loadPts2ConfigFromEnv
succeeds and yields tlsInsecure = true, that is TLS certificate verification
DISABLED by default, contradicting the claim that an absent variable leaves
verification enabled and that the insecure mode is only ever explicit. -/
theorem C1_tlsInsecure_defaults_true :
    loadPts2ConfigFromEnv envHostOnly =
      .ok { host := "192.168.1.117", security := "https", httpPort := 80, httpsPort := 443,
            auth := "digest", login := "", password := "", timeoutMs := 15000,
            tlsInsecure := true } := by
  rfl

/-! ## C9: which required fields make loading fail fast -/

/-- A validation helper: an empty host always fails the schema. -/
theorem validate_empty_host {c : Pts2Config} (h : c.host = "") :
    validatePts2Config c = .error "host: String must contain at least 1 character(s)" := by
  unfold validatePts2Config
  rw [h]
  rw [if_pos (by decide)]

/-- An environment with a host but explicitly empty login and password. -/
def envEmptyCreds : Pts2Env :=
  { PTS2_HOST := some "192.168.1.117", PTS2_LOGIN := some "", PTS2_PASSWORD := some "" }

/-- C9 counterexample: with login and password set to the empty string the
loader does NOT fail: the schema only requires host to be nonempty, so a
Config with empty credentials is returned. -/
theorem C9_empty_credentials_accepted :
    loadPts2ConfigFromEnv envEmptyCreds =
      .ok { host := "192.168.1.117", security := "https", httpPort := 80, httpsPort := 443,
            auth := "digest", login := "", password := "", timeoutMs := 15000,
            tlsInsecure := true } := by
  rfl

/-- C9 (amended): configuration is validated before Client construction and
loading fails fast when the host is empty or unset; empty login or password
strings are accepted (those fields carry no minimum length). -/
theorem C9_fails_fast_on_empty_host (env : Pts2Env)
    (h : env.PTS2_HOST = none ∨ env.PTS2_HOST = some "") :
    ∃ e, loadPts2ConfigFromEnv env = .error e := by
  have hh : env.PTS2_HOST.getD "" = "" := by rcases h with h | h <;> simp [h]
  exact ⟨_, validate_empty_host hh⟩

/-- C9 witness: the amended theorem applies to the empty environment. -/
theorem C9_fails_fast_on_empty_host_witness :
    ∃ e, loadPts2ConfigFromEnv {} = .error e :=
  C9_fails_fast_on_empty_host {} (Or.inl rfl)

/-! ## C5: rejected envelopes -/

/-- C5: parseEnvelope fails when the input is not an object, when the Protocol
field is missing or not exactly the string jsonPTS, when Packets is missing or
not an array, or when any packet is not a record with a valid integer id; and
decoding the envelope with Protocol "other" and an empty Packets array always
fails with the protocol mismatch error. -/
theorem C5_parseEnvelope_rejects (raw : Json) :
    ((∀ fs, raw ≠ .obj fs) → exceptIsError (parseEnvelope raw) = true) ∧
    (∀ fs, raw = .obj fs → jsonLookup "Protocol" fs ≠ some (.str "jsonPTS") →
      exceptIsError (parseEnvelope raw) = true) ∧
    (∀ fs, raw = .obj fs → (∀ xs, jsonLookup "Packets" fs ≠ some (.arr xs)) →
      exceptIsError (parseEnvelope raw) = true) ∧
    (∀ fs xs p, raw = .obj fs → jsonLookup "Packets" fs = some (.arr xs) → p ∈ xs →
      (∀ pf, p = .obj pf → packetId pf = none) →
      exceptIsError (parseEnvelope raw) = true) ∧
    parseEnvelope (.obj [("Protocol", .str "other"), ("Packets", .arr [])]) =
      .error "Protocol mismatch: expected jsonPTS, got other" := by
  refine ⟨?_, ?_, ?_, ?_, by rfl⟩
  · intro hobj
    cases he : parseEnvelope raw with
    | error e => rfl
    | ok ps =>
      rcases parseEnvelope_ok_inv he with ⟨fs, _, _, _, hraw, _⟩
      exact absurd hraw (hobj fs)
  · intro fs hraw hfne
    cases he : parseEnvelope raw with
    | error e => rfl
    | ok ps =>
      rcases parseEnvelope_ok_inv he with ⟨fs2, xs, records, pkts, hraw2, hP, _⟩
      rw [hraw] at hraw2
      injection hraw2 with hfs
      subst hfs
      exact absurd hP hfne
  · intro fs hraw hfne
    cases he : parseEnvelope raw with
    | error e => rfl
    | ok ps =>
      rcases parseEnvelope_ok_inv he with ⟨fs2, xs, records, pkts, hraw2, hP, hK, _⟩
      rw [hraw] at hraw2
      injection hraw2 with hfs
      subst hfs
      exact absurd hK (hfne xs)
  · intro fs xs p hraw hK hp hbad
    cases he : parseEnvelope raw with
    | error e => rfl
    | ok ps =>
      rcases parseEnvelope_ok_inv he with ⟨fs2, xs2, records, pkts, hraw2, hP, hK2, hR, hM, hps⟩
      rw [hraw] at hraw2
      injection hraw2 with hfs
      subst hfs
      rw [hK] at hK2
      injection hK2 with hxs
      injection hxs with hxs2
      subst hxs2
      rcases mapME_ok_forall hR p hp with ⟨pf, hpf⟩
      have hpobj : p = Json.obj pf := by
        cases p with
        | obj l =>
          simp only [asRecord] at hpf
          injection hpf with hl
          rw [hl]
        | null => exact Except.noConfusion hpf
        | bool b => exact Except.noConfusion hpf
        | num n => exact Except.noConfusion hpf
        | str s2 => exact Except.noConfusion hpf
        | arr l => exact Except.noConfusion hpf
      have hrecords := mapME_ok_map ([] : List (String × Json)) hR
      have hmem : pf ∈ records := by
        rw [hrecords]
        have hmm := List.mem_map_of_mem (fun x => exceptGetD (asRecord x) []) hp
        simpa [hpf, exceptGetD] using hmm
      rcases mapME_ok_forall hM pf hmem with ⟨y, hy⟩
      rw [parsePacket, hbad pf hpobj] at hy
      exact Except.noConfusion hy

/-- An envelope whose single packet has no Id field. -/
def envMissingId : Json :=
  .obj [("Protocol", .str "jsonPTS"), ("Packets", .arr [Json.obj [("Type", .str "GetDateTime")]])]

/-- C5 witness: the rejection theorem applies to a concrete packet without an
Id, whose decoding indeed fails. -/
theorem C5_parseEnvelope_rejects_witness :
    exceptIsError (parseEnvelope envMissingId) = true :=
  (C5_parseEnvelope_rejects envMissingId).2.2.2.1
    [("Protocol", .str "jsonPTS"), ("Packets", .arr [Json.obj [("Type", .str "GetDateTime")]])]
    [Json.obj [("Type", .str "GetDateTime")]]
    (Json.obj [("Type", .str "GetDateTime")])
    rfl rfl (by simp)
    (fun pf hpf => by
      injection hpf with h
      subst h
      rfl)

/-! ## C6: decoded order -/

/-- C6 (amended): every successfully decoded packet sequence is sorted
ascending by id; and two valid envelopes whose Packets arrays are permutations
of each other decode to the same sequence whenever the decoded ids are
pairwise distinct.  (With duplicate ids the stable sort keeps arrival order,
so permuted inputs can decode differently.) -/
theorem C6_sorted_and_perm_invariant :
    (∀ raw ps, parseEnvelope raw = .ok ps → ps.Pairwise (fun a b => a.id ≤ b.id)) ∧
    (∀ fs1 fs2 xs1 xs2 ps1 ps2,
      jsonLookup "Packets" fs1 = some (.arr xs1) →
      jsonLookup "Packets" fs2 = some (.arr xs2) →
      List.Perm xs1 xs2 →
      parseEnvelope (.obj fs1) = .ok ps1 →
      parseEnvelope (.obj fs2) = .ok ps2 →
      (ps1.map (fun p => p.id)).Nodup →
      ps1 = ps2) := by
  constructor
  · intro raw ps h
    rcases parseEnvelope_ok_inv h with ⟨fs, xs, records, pkts, _, _, _, _, _, hps⟩
    rw [hps]
    exact sortPacketsById_pairwise pkts
  · intro fs1 fs2 xs1 xs2 ps1 ps2 hK1 hK2 hperm h1 h2 hnd
    rcases parseEnvelope_ok_inv h1 with ⟨fs1b, xs1b, records1, pkts1, hfs1, _, hK1b, hR1, hM1, hps1⟩
    rcases parseEnvelope_ok_inv h2 with ⟨fs2b, xs2b, records2, pkts2, hfs2, _, hK2b, hR2, hM2, hps2⟩
    injection hfs1 with hfs1e
    subst hfs1e
    injection hfs2 with hfs2e
    subst hfs2e
    rw [hK1] at hK1b
    injection hK1b with hx1
    injection hx1 with hx1e
    subst hx1e
    rw [hK2] at hK2b
    injection hK2b with hx2
    injection hx2 with hx2e
    subst hx2e
    have hrec1 := mapME_ok_map ([] : List (String × Json)) hR1
    have hrec2 := mapME_ok_map ([] : List (String × Json)) hR2
    have hpk1 := mapME_ok_map (default : JsonPtsPacketResponse) hM1
    have hpk2 := mapME_ok_map (default : JsonPtsPacketResponse) hM2
    rw [hrec1] at hpk1
    rw [hrec2] at hpk2
    rw [List.map_map] at hpk1 hpk2
    have hpkperm : List.Perm pkts1 pkts2 := by
      rw [hpk1, hpk2]
      exact hperm.map _
    have hps12 : List.Perm ps1 ps2 := by
      rw [hps1, hps2]
      exact ((sortPacketsById_perm pkts1).trans hpkperm).trans (sortPacketsById_perm pkts2).symm
    refine sorted_perm_nodup_eq hps12 ?_ ?_ hnd
    · rw [hps1]; exact sortPacketsById_pairwise pkts1
    · rw [hps2]; exact sortPacketsById_pairwise pkts2

/-- A response packet with id 0 and type a. -/
def dupPacketA : Json := .obj [("Id", .num 0), ("Type", .str "a")]

/-- A response packet with id 0 and type b. -/
def dupPacketB : Json := .obj [("Id", .num 0), ("Type", .str "b")]

/-- Envelope carrying the duplicate-id packets in order a then b. -/
def dupEnvelope1 : Json :=
  .obj [("Protocol", .str "jsonPTS"), ("Packets", .arr [dupPacketA, dupPacketB])]

/-- Envelope carrying the same packets in order b then a. -/
def dupEnvelope2 : Json :=
  .obj [("Protocol", .str "jsonPTS"), ("Packets", .arr [dupPacketB, dupPacketA])]

/-- C6 counterexample: two valid envelopes whose Packets arrays are
permutations of each other decode to DIFFERENT sequences, because both
packets share id 0 and the stable sort keeps their arrival order. -/
theorem C6_duplicate_ids_not_invariant :
    List.Perm [dupPacketA, dupPacketB] [dupPacketB, dupPacketA] ∧
    parseEnvelope dupEnvelope1 =
      .ok [{ id := 0, type := some "a", error := false },
           { id := 0, type := some "b", error := false }] ∧
    parseEnvelope dupEnvelope2 =
      .ok [{ id := 0, type := some "b", error := false },
           { id := 0, type := some "a", error := false }] ∧
    ([{ id := 0, type := some "a", error := false },
      { id := 0, type := some "b", error := false }] : List JsonPtsPacketResponse) ≠
      [{ id := 0, type := some "b", error := false },
       { id := 0, type := some "a", error := false }] := by
  refine ⟨List.Perm.swap dupPacketB dupPacketA [], rfl, rfl, ?_⟩
  intro h
  injection h with h1 h2
  have ht := congrArg JsonPtsPacketResponse.type h1
  injection ht with ht2
  exact absurd ht2 (by decide)

/-- Packet with id 0 used by the reordering witness. -/
def c6pkt0 : Json := .obj [("Id", .num 0), ("Type", .str "x")]

/-- Packet with id 1 used by the reordering witness. -/
def c6pkt1 : Json := .obj [("Id", .num 1), ("Type", .str "y")]

/-- C6 witness: an in-order and a reverse-order envelope with distinct ids
decode to the same sorted sequence, by the invariance theorem. -/
theorem C6_sorted_and_perm_invariant_witness :
    ([{ id := 0, type := some "x", error := false },
      { id := 1, type := some "y", error := false }] : List JsonPtsPacketResponse) =
    [{ id := 0, type := some "x", error := false },
     { id := 1, type := some "y", error := false }] :=
  C6_sorted_and_perm_invariant.2
    [("Protocol", .str "jsonPTS"), ("Packets", .arr [c6pkt0, c6pkt1])]
    [("Protocol", .str "jsonPTS"), ("Packets", .arr [c6pkt1, c6pkt0])]
    [c6pkt0, c6pkt1] [c6pkt1, c6pkt0] _ _
    rfl rfl (List.Perm.swap c6pkt1 c6pkt0 []) rfl rfl (by decide)

/-! ## C7: encoding and the round trip -/

/-- The response envelope packets matching a request list: the i-th packet
carries Id i and the type of the i-th request, in the same order. -/
def matchingRespPackets (i : Nat) : List JsonPtsPacketRequest → List Json
  | [] => []
  | p :: rest => .obj [("Id", .num i), ("Type", .str p.type)] :: matchingRespPackets (i + 1) rest

/-- The record lists underlying matchingRespPackets. -/
def matchingRespFields (i : Nat) : List JsonPtsPacketRequest → List (List (String × Json))
  | [] => []
  | p :: rest => [("Id", Json.num i), ("Type", Json.str p.type)] :: matchingRespFields (i + 1) rest

/-- A response envelope built with the matching ids in the same order. -/
def matchingResponseEnvelope (rs : List JsonPtsPacketRequest) : Json :=
  .obj [("Protocol", .str "jsonPTS"), ("Packets", .arr (matchingRespPackets 0 rs))]

/-- The decoded responses expected from matchingResponseEnvelope. -/
def matchingResponses (i : Nat) : List JsonPtsPacketRequest → List JsonPtsPacketResponse
  | [] => []
  | p :: rest =>
    { id := (i : Int), type := some p.type, error := false } :: matchingResponses (i + 1) rest

/-- Assembly of a successful parseEnvelope run from its stage results. -/
theorem parseEnvelope_ok_build {fs : List (String × Json)} {xs : List Json}
    {records : List (List (String × Json))} {pkts : List JsonPtsPacketResponse}
    (hP : jsonLookup "Protocol" fs = some (.str "jsonPTS"))
    (hK : jsonLookup "Packets" fs = some (.arr xs))
    (hR : mapME asRecord xs = .ok records)
    (hM : mapME parsePacket records = .ok pkts) :
    parseEnvelope (.obj fs) = .ok (sortPacketsById pkts) := by
  unfold parseEnvelope
  simp only [hP, hK, hR, hM]
  rw [if_neg (not_not_intro rfl)]

theorem mapME_asRecord_matching (rs : List JsonPtsPacketRequest) :
    ∀ i, mapME asRecord (matchingRespPackets i rs) = .ok (matchingRespFields i rs) := by
  induction rs with
  | nil => intro i; rfl
  | cons p rest ih =>
    intro i
    simp only [matchingRespPackets, matchingRespFields, mapME, asRecord, ih (i + 1)]

theorem mapME_parsePacket_matching (rs : List JsonPtsPacketRequest) :
    ∀ i, mapME parsePacket (matchingRespFields i rs) = .ok (matchingResponses i rs) := by
  induction rs with
  | nil => intro i; rfl
  | cons p rest ih =>
    intro i
    have hone : parsePacket [("Id", Json.num i), ("Type", Json.str p.type)] =
        .ok { id := (i : Int), type := some p.type, error := false } := rfl
    simp only [matchingRespFields, matchingResponses, mapME, hone, ih (i + 1)]

theorem matchingResponses_mem_id (rs : List JsonPtsPacketRequest) :
    ∀ k b, b ∈ matchingResponses k rs → (k : Int) ≤ b.id := by
  induction rs with
  | nil => intro k b hb; exact absurd hb (List.not_mem_nil b)
  | cons p rest ih =>
    intro k b hb
    rcases List.mem_cons.mp hb with hb | hb
    · rw [hb]
    · have hk1 : ((k : Int)) ≤ ((k + 1 : Nat) : Int) := by exact_mod_cast Nat.le_succ k
      exact le_trans hk1 (ih (k + 1) b hb)

theorem matchingResponses_pairwise (rs : List JsonPtsPacketRequest) :
    ∀ k, (matchingResponses k rs).Pairwise (fun a b => a.id ≤ b.id) := by
  induction rs with
  | nil => intro k; exact List.Pairwise.nil
  | cons p rest ih =>
    intro k
    refine List.pairwise_cons.mpr ⟨?_, ih (k + 1)⟩
    intro b hb
    have hk1 : ((k : Int)) ≤ ((k + 1 : Nat) : Int) := by exact_mod_cast Nat.le_succ k
    exact le_trans hk1 (matchingResponses_mem_id rest (k + 1) b hb)

theorem matchingResponses_length (rs : List JsonPtsPacketRequest) :
    ∀ k, (matchingResponses k rs).length = rs.length := by
  induction rs with
  | nil => intro k; rfl
  | cons p rest ih => intro k; simp [matchingResponses, ih (k + 1)]

theorem encodePackets_getElem? (rs : List JsonPtsPacketRequest) :
    ∀ k i, (encodePackets k rs)[i]? = (rs[i]?).map (fun p => Json.obj (encodeFields (k + i) p)) := by
  induction rs with
  | nil => intro k i; simp [encodePackets]
  | cons p rest ih =>
    intro k i
    cases i with
    | zero => simp [encodePackets]
    | succ j =>
      simp only [encodePackets, List.getElem?_cons_succ, ih (k + 1) j]
      have harith : k + 1 + j = k + (j + 1) := by omega
      rw [harith]

theorem matchingResponses_getElem? (rs : List JsonPtsPacketRequest) :
    ∀ k i, (matchingResponses k rs)[i]? =
      (rs[i]?).map (fun p =>
        ({ id := ((k + i : Nat) : Int), type := some p.type, error := false } :
          JsonPtsPacketResponse)) := by
  induction rs with
  | nil => intro k i; simp [matchingResponses]
  | cons p rest ih =>
    intro k i
    cases i with
    | zero => simp [matchingResponses]
    | succ j =>
      simp only [matchingResponses, List.getElem?_cons_succ, ih (k + 1) j]
      have harith : k + 1 + j = k + (j + 1) := by omega
      rw [harith]

/-- C7: buildEnvelope gives the i-th packet the sequential id i, includes the
Data key exactly when the request carries data, and decoding a response
envelope built with the matching ids in the same order yields one response per
request, in the identical order. -/
theorem C7_encode_roundtrip (rs : List JsonPtsPacketRequest) :
    buildEnvelope rs = .obj [("Protocol", .str "jsonPTS"), ("Packets", .arr (encodePackets 0 rs))] ∧
    (∀ i, (encodePackets 0 rs)[i]? = (rs[i]?).map (fun p => Json.obj (encodeFields i p))) ∧
    (∀ i p, rs[i]? = some p →
      jsonLookup "Id" (encodeFields i p) = some (.num i) ∧
      ((jsonLookup "Data" (encodeFields i p)).isSome ↔ p.data.isSome)) ∧
    parseEnvelope (matchingResponseEnvelope rs) = .ok (matchingResponses 0 rs) ∧
    (matchingResponses 0 rs).length = rs.length ∧
    (∀ i : Nat, (matchingResponses 0 rs)[i]? =
      (rs[i]?).map (fun p =>
        ({ id := (i : Int), type := some p.type, error := false } : JsonPtsPacketResponse))) := by
  refine ⟨rfl, ?_, ?_, ?_, matchingResponses_length rs 0, ?_⟩
  · intro i
    have h := encodePackets_getElem? rs 0 i
    simpa using h
  · intro i p hp
    cases hd : p.data with
    | some d =>
      refine ⟨by simp [encodeFields, hd, jsonLookup], ?_⟩
      simp [encodeFields, hd, jsonLookup]
    | none =>
      refine ⟨by simp [encodeFields, hd, jsonLookup], ?_⟩
      simp [encodeFields, hd, jsonLookup]
  · have h := @parseEnvelope_ok_build
      [("Protocol", .str "jsonPTS"), ("Packets", .arr (matchingRespPackets 0 rs))]
      _ _ _ rfl rfl (mapME_asRecord_matching rs 0) (mapME_parsePacket_matching rs 0)
    rw [sortPacketsById_eq_self (matchingResponses_pairwise rs 0)] at h
    exact h
  · intro i
    have h := matchingResponses_getElem? rs 0 i
    simpa using h

/-- The request list exercised by the round-trip witness. -/
def c7requests : List JsonPtsPacketRequest :=
  [{ type := "GetDateTime" }, { type := "SetDateTime", data := some (.num 1) }]

/-- C7 witness: the round-trip theorem applies to a concrete two-request
batch, one request without data and one with data. -/
theorem C7_encode_roundtrip_witness :
    (jsonLookup "Id" (encodeFields 1 { type := "SetDateTime", data := some (.num 1) }) =
      some (.num 1) ∧
     ((jsonLookup "Data" (encodeFields 1 { type := "SetDateTime", data := some (.num 1) })).isSome ↔
      (some (Json.num 1)).isSome)) ∧
    parseEnvelope (matchingResponseEnvelope c7requests) = .ok (matchingResponses 0 c7requests) :=
  ⟨(C7_encode_roundtrip c7requests).2.2.1 1 { type := "SetDateTime", data := some (.num 1) } rfl,
   (C7_encode_roundtrip c7requests).2.2.2.1⟩

/-! ## C3: validation inside execute -/

theorem firstIdMismatch_zero_none_iff (l : List JsonPtsPacketResponse) :
    firstIdMismatch 0 l = none ↔ ∀ i, (h : i < l.length) → l[i].id = (i : Int) := by
  rw [firstIdMismatch_none_iff l 0]
  constructor
  · intro h i hi
    have := h i hi
    simpa using this
  · intro h i hi
    have := h i hi
    simpa using this

/-- C3: executeValidate fails with the count-mismatch correlation error when
the response count differs from the request count; fails with the id-mismatch
correlation error when any response id differs from its position; otherwise,
if some response is error-flagged, it fails with the typed packet error
carrying the first such response (which has the least id among error-flagged
responses) and returns nothing; only an entirely clean batch is returned, in
full. -/
theorem C3_execute_validation (reqs : List JsonPtsPacketRequest)
    (parsed : List JsonPtsPacketResponse) :
    (parsed.length ≠ reqs.length →
      executeValidate reqs parsed = .error (.countMismatch reqs.length parsed.length)) ∧
    (parsed.length = reqs.length →
      (∃ i, ∃ h : i < parsed.length, parsed[i].id ≠ (i : Int)) →
      ∃ j g, executeValidate reqs parsed = .error (.idMismatch j g)) ∧
    (parsed.length = reqs.length →
      (∀ i, (h : i < parsed.length) → parsed[i].id = (i : Int)) →
      ∀ p, parsed.find? (fun q => q.error) = some p →
        executeValidate reqs parsed = .error (.packetError p) ∧
        ∀ q ∈ parsed, q.error → p.id ≤ q.id) ∧
    (parsed.length = reqs.length →
      (∀ i, (h : i < parsed.length) → parsed[i].id = (i : Int)) →
      parsed.find? (fun q => q.error) = none →
      executeValidate reqs parsed = .ok parsed ∧ ∀ q ∈ parsed, q.error = false) := by
  refine ⟨?_, ?_, ?_, ?_⟩
  · intro hlen
    unfold executeValidate
    rw [if_pos hlen]
  · intro hlen hex
    have hne : firstIdMismatch 0 parsed ≠ none := by
      intro hnone
      have hall := (firstIdMismatch_zero_none_iff parsed).mp hnone
      rcases hex with ⟨i, hi, hneq⟩
      exact hneq (hall i hi)
    cases hfim : firstIdMismatch 0 parsed with
    | none => exact absurd hfim hne
    | some pr =>
      rcases pr with ⟨j, g⟩
      refine ⟨j, g, ?_⟩
      simp only [executeValidate, hfim]
      rw [if_neg (not_not_intro hlen)]
  · intro hlen hids p hfind
    have hfim : firstIdMismatch 0 parsed = none :=
      (firstIdMismatch_zero_none_iff parsed).mpr hids
    constructor
    · simp only [executeValidate, hfim, hfind]
      rw [if_neg (not_not_intro hlen)]
    · have hpw : parsed.Pairwise (fun a b => a.id ≤ b.id) :=
        pairwise_of_ids_indexed parsed 0 (fun i hi => by simpa using hids i hi)
      intro q hq hqe
      exact find?_min_of_pairwise hpw hfind q hq hqe
  · intro hlen hids hfind
    have hfim : firstIdMismatch 0 parsed = none :=
      (firstIdMismatch_zero_none_iff parsed).mpr hids
    constructor
    · simp only [executeValidate, hfim, hfind]
      rw [if_neg (not_not_intro hlen)]
    · intro q hq
      have := List.find?_eq_none.mp hfind q hq
      simpa using this

/-- The one-packet request batch used by the validation witness. -/
def c3requests : List JsonPtsPacketRequest := [{ type := "SetDateTime" }]

/-- The error-flagged response packet used by the validation witness. -/
def c3errPacket : JsonPtsPacketResponse :=
  { id := 0, type := some "SetDateTime", error := true,
    code := some (some 12), message := some "PUMP OFFLINE" }

/-- C3 witness: the validation theorem applies to a correlated batch whose
single response is error-flagged, which is surfaced as the packet error. -/
theorem C3_execute_validation_witness :
    executeValidate c3requests [c3errPacket] = .error (.packetError c3errPacket) :=
  ((C3_execute_validation c3requests [c3errPacket]).2.2.1 rfl
    (by decide) c3errPacket rfl).1

/-! ## C10: setDateTime only returns true -/

theorem executeValidate_ok_inv {reqs : List JsonPtsPacketRequest}
    {parsed ps : List JsonPtsPacketResponse}
    (h : executeValidate reqs parsed = .ok ps) :
    ps = parsed ∧ parsed.length = reqs.length ∧ ∀ q ∈ parsed, q.error = false := by
  unfold executeValidate at h
  by_cases hlen : parsed.length ≠ reqs.length
  · rw [if_pos hlen] at h
    exact Except.noConfusion h
  · rw [if_neg hlen] at h
    cases hfim : firstIdMismatch 0 parsed with
    | some pr =>
      rcases pr with ⟨j, g⟩
      rw [hfim] at h
      exact Except.noConfusion h
    | none =>
      rw [hfim] at h
      cases hfind : parsed.find? (fun q => q.error) with
      | some p =>
        rw [hfind] at h
        exact Except.noConfusion h
      | none =>
        rw [hfind] at h
        injection h with h1
        refine ⟨h1.symm, not_not.mp hlen, ?_⟩
        intro q hq
        have := List.find?_eq_none.mp hfind q hq
        simpa using this

theorem clientExecute_ok_inv {cfg : Pts2Config} {hashRaw : String → String → String}
    {cnonce : String} {nc : Nat} {resp : Nat → TransportResp}
    {packets : List JsonPtsPacketRequest} {ps : List JsonPtsPacketResponse}
    {nc2 : Nat} {calls : List Call}
    (h : clientExecute cfg hashRaw cnonce nc resp packets = (.ok ps, nc2, calls)) :
    ∃ parsed, executeValidate packets parsed = .ok ps := by
  unfold clientExecute at h
  repeat' split at h
  · injection h with h1 h2
    exact Except.noConfusion h1
  · injection h with h1 h2
    exact Except.noConfusion h1
  · injection h with h1 h2
    exact Except.noConfusion h1
  · rename_i j parsed hpe
    injection h with h1 h2
    exact ⟨parsed, h1⟩

/-- C10: whenever setDateTime completes without throwing, the boolean it
returns is true: execute has already thrown a typed packet error for any
error-flagged response, so the packet setDateTime inspects is never
error-flagged. -/
theorem C10_setDateTime_true (cfg : Pts2Config) (hashRaw : String → String → String)
    (cnonce : String) (nc : Nat) (resp : Nat → TransportResp)
    (dateTime : String) (utcOffset : Int) (autoSynchronize : Bool)
    (b : Bool) (nc2 : Nat) (calls : List Call)
    (h : setDateTime cfg hashRaw cnonce nc resp dateTime utcOffset autoSynchronize =
      (.ok b, nc2, calls)) : b = true := by
  simp only [setDateTime] at h
  split at h
  · injection h with h1 h2
    exact Except.noConfusion h1
  · rename_i ps nc3 calls3 hexec
    injection h with h1 h2
    injection h1 with h1b
    rcases clientExecute_ok_inv hexec with ⟨parsed, hval⟩
    rcases executeValidate_ok_inv hval with ⟨hps, hlen, herr⟩
    subst hps
    cases ps with
    | nil => simp at hlen
    | cons q rest =>
      have hq : q.error = false := herr q (List.mem_cons_self q rest)
      rw [← h1b]
      simp [List.headD, hq]

/-- The configuration used by the setDateTime witness (basic auth, http). -/
def c10cfg : Pts2Config :=
  { host := "192.168.1.117", security := "http", httpPort := 80, httpsPort := 443,
    auth := "basic", login := "admin", password := "admin", timeoutMs := 15000,
    tlsInsecure := false }

/-- A clean one-packet response envelope. -/
def c10okBody : Json :=
  .obj [("Protocol", .str "jsonPTS"), ("Packets", .arr [Json.obj [("Id", .num 0)]])]

/-- A transport that always answers 200 with the clean envelope. -/
def c10resp : Nat → TransportResp := fun _ => .ok c10okBody

/-- A concrete stand-in for the abstract digest function. -/
def hashIdent : String → String → String := fun alg data => alg ++ "|" ++ data

/-- The SetDateTime payload sent by the witness call. -/
def c10data : Json :=
  .obj [("DateTime", .str "2026-02-12T10:00:00"), ("UTCOffset", .num 0),
        ("AutoSynchronize", .bool false)]

/-- The single POST the witness call performs. -/
def c10calls : List Call :=
  [⟨buildEnvelope [{ type := "SetDateTime", data := some c10data }],
    some (basicAuthHeader c10cfg)⟩]

/-- C10 witness: a complete successful setDateTime run returns true, and the
theorem applies to it. -/
theorem C10_setDateTime_true_witness :
    setDateTime c10cfg hashIdent "cn" 0 c10resp "2026-02-12T10:00:00" 0 false =
      (.ok true, 0, c10calls) ∧ true = true :=
  ⟨rfl,
   C10_setDateTime_true c10cfg hashIdent "cn" 0 c10resp "2026-02-12T10:00:00" 0 false
     true 0 c10calls rfl⟩

/-! ## C4: the digest response and its fields -/

theorem hexChars_length_le :
    ∀ (fuel n k : Nat), n < fuel → n < 16 ^ k → 0 < k → (hexChars fuel n).length ≤ k := by
  intro fuel
  induction fuel with
  | zero => intro n k hn _ _; omega
  | succ f ih =>
    intro n k hn hk hkpos
    by_cases h16 : n < 16
    · simp only [hexChars, if_pos h16]
      simpa using hkpos
    · simp only [hexChars, if_neg h16]
      rw [List.length_append]
      have hk2 : 2 ≤ k := by
        by_contra hcon
        have hk1 : k = 1 := by omega
        subst hk1
        rw [pow_one] at hk
        omega
      have hdivf : n / 16 < f := by
        have h1 : n / 16 < n := Nat.div_lt_self (by omega) (by omega)
        omega
      have hdivk : n / 16 < 16 ^ (k - 1) := by
        rw [Nat.div_lt_iff_lt_mul (by omega)]
        have hpow : 16 ^ (k - 1) * 16 = 16 ^ k := by
          rw [← pow_succ]
          congr 1
          omega
        omega
      have := ih (n / 16) (k - 1) hdivf hdivk (by omega)
      simp only [List.length_singleton]
      omega

theorem hexChars_mem_digits :
    ∀ (fuel n : Nat), ∀ c ∈ hexChars fuel n, c ∈ "0123456789abcdef".data := by
  intro fuel
  induction fuel with
  | zero => intro n c hc; exact absurd hc (List.not_mem_nil c)
  | succ f ih =>
    intro n c hc
    have hdig : ∀ m, m < 16 → hexDigit m ∈ "0123456789abcdef".data := by decide
    by_cases h16 : n < 16
    · simp only [hexChars, if_pos h16] at hc
      exact (List.mem_singleton.mp hc) ▸ hdig n h16
    · simp only [hexChars, if_neg h16] at hc
      rcases List.mem_append.mp hc with hc | hc
      · exact ih (n / 16) c hc
      · exact (List.mem_singleton.mp hc) ▸ hdig (n % 16) (Nat.mod_lt n (by omega))

theorem formatNc_length {nc : Nat} (h : nc < 16 ^ 8) : (formatNc nc).length = 8 := by
  have hdata : (formatNc nc).data =
      List.replicate (8 - (hexString nc).length) '0' ++ hexChars (nc + 1) nc := rfl
  have hlen : (hexString nc).length = (hexChars (nc + 1) nc).length := rfl
  have hle : (hexChars (nc + 1) nc).length ≤ 8 :=
    hexChars_length_le (nc + 1) nc 8 (Nat.lt_succ_self nc) h (by omega)
  show (formatNc nc).data.length = 8
  rw [hdata, List.length_append, List.length_replicate, hlen]
  omega

theorem formatNc_digits (nc : Nat) :
    ∀ c ∈ (formatNc nc).data, c ∈ "0123456789abcdef".data := by
  intro c hc
  have hdata : (formatNc nc).data =
      List.replicate (8 - (hexString nc).length) '0' ++ hexChars (nc + 1) nc := rfl
  rw [hdata] at hc
  rcases List.mem_append.mp hc with hc | hc
  · have h0 := List.eq_of_mem_replicate hc
    subst h0
    decide
  · exact hexChars_mem_digits (nc + 1) nc c hc

theorem take3_clash (l1 l2 : List Char) {s1 s2 : String} (h : s1 = s2)
    (h1 : s1.data.take 3 = l1) (h2 : s2.data.take 3 = l2) (hne : l1 ≠ l2) : False :=
  hne (h1.symm.trans ((congrArg (fun t : String => t.data.take 3) h).trans h2))

/-- C4 (amended): for every challenge and every nonce count below 16^8 the
formatted nonce count has exactly eight lowercase hex digits (above that bound
it is longer); when a qop is selected the response digest is
hash(HA1:nonce:nc8:cnonce:qop:HA2) and the header parts carry the qop, nc and
cnonce fields; when no qop is selected the digest is the two part
hash(HA1:nonce:HA2) and no header part is a qop, nc or cnonce field. -/
theorem C4_digest_response (hashRaw : String → String → String) (cnonce : String)
    (p : DigestAuthParams) (hnc : p.nc < 16 ^ 8) :
    ((formatNc p.nc).length = 8 ∧ ∀ c ∈ (formatNc p.nc).data, c ∈ "0123456789abcdef".data) ∧
    (∀ q, pickQop p.challenge.qop = some q →
      ("response=\"" ++
          hashD hashRaw (asciiUpper (p.challenge.algorithm.getD "MD5"))
            (digestHa1 hashRaw cnonce p ++ ":" ++ p.challenge.nonce.getD "" ++ ":" ++
             formatNc p.nc ++ ":" ++ cnonce ++ ":" ++ q ++ ":" ++ digestHa2 hashRaw p) ++
          "\"") ∈ digestAuthParts hashRaw cnonce p ∧
      ("qop=" ++ q) ∈ digestAuthParts hashRaw cnonce p ∧
      ("nc=" ++ formatNc p.nc) ∈ digestAuthParts hashRaw cnonce p ∧
      ("cnonce=\"" ++ cnonce ++ "\"") ∈ digestAuthParts hashRaw cnonce p) ∧
    (pickQop p.challenge.qop = none →
      ("response=\"" ++
          hashD hashRaw (asciiUpper (p.challenge.algorithm.getD "MD5"))
            (digestHa1 hashRaw cnonce p ++ ":" ++ p.challenge.nonce.getD "" ++ ":" ++
             digestHa2 hashRaw p) ++
          "\"") ∈ digestAuthParts hashRaw cnonce p ∧
      (∀ part ∈ digestAuthParts hashRaw cnonce p,
        (¬∃ r, part = "qop=" ++ r) ∧ (¬∃ r, part = "nc=" ++ r) ∧
        (¬∃ r, part = "cnonce=" ++ r))) := by
  refine ⟨⟨formatNc_length hnc, formatNc_digits p.nc⟩, ?_, ?_⟩
  · intro q hq
    refine ⟨?_, ?_, ?_, ?_⟩
    · simp only [digestAuthParts, digestResponse, hq]
      exact List.mem_append_left _ (List.mem_append_left _ (List.mem_append_left _
        (List.mem_append_left _ (by simp))))
    · simp only [digestAuthParts, hq]
      exact List.mem_append_right _ (by simp)
    · simp only [digestAuthParts, hq]
      exact List.mem_append_right _ (by simp)
    · simp only [digestAuthParts, hq]
      exact List.mem_append_right _ (by simp)
  · intro hq
    constructor
    · simp only [digestAuthParts, digestResponse, hq]
      exact List.mem_append_left _ (List.mem_append_left _ (List.mem_append_left _
        (List.mem_append_left _ (by simp))))
    · intro part hpart
      simp only [digestAuthParts, hq, List.append_nil] at hpart
      rcases List.mem_append.mp hpart with hpart | hpart
      · rcases List.mem_append.mp hpart with hpart | hpart
        · rcases List.mem_append.mp hpart with hpart | hpart
          · simp only [List.mem_cons, List.not_mem_nil, or_false] at hpart
            rcases hpart with rfl | rfl | rfl | rfl | rfl
            · exact ⟨fun ⟨r, hr⟩ => take3_clash ['u', 's', 'e'] ['q', 'o', 'p'] hr rfl rfl (by decide),
                     fun ⟨r, hr⟩ => take3_clash ['u', 's', 'e'] ['n', 'c', '='] hr rfl rfl (by decide),
                     fun ⟨r, hr⟩ => take3_clash ['u', 's', 'e'] ['c', 'n', 'o'] hr rfl rfl (by decide)⟩
            · exact ⟨fun ⟨r, hr⟩ => take3_clash ['r', 'e', 'a'] ['q', 'o', 'p'] hr rfl rfl (by decide),
                     fun ⟨r, hr⟩ => take3_clash ['r', 'e', 'a'] ['n', 'c', '='] hr rfl rfl (by decide),
                     fun ⟨r, hr⟩ => take3_clash ['r', 'e', 'a'] ['c', 'n', 'o'] hr rfl rfl (by decide)⟩
            · exact ⟨fun ⟨r, hr⟩ => take3_clash ['n', 'o', 'n'] ['q', 'o', 'p'] hr rfl rfl (by decide),
                     fun ⟨r, hr⟩ => take3_clash ['n', 'o', 'n'] ['n', 'c', '='] hr rfl rfl (by decide),
                     fun ⟨r, hr⟩ => take3_clash ['n', 'o', 'n'] ['c', 'n', 'o'] hr rfl rfl (by decide)⟩
            · exact ⟨fun ⟨r, hr⟩ => take3_clash ['u', 'r', 'i'] ['q', 'o', 'p'] hr rfl rfl (by decide),
                     fun ⟨r, hr⟩ => take3_clash ['u', 'r', 'i'] ['n', 'c', '='] hr rfl rfl (by decide),
                     fun ⟨r, hr⟩ => take3_clash ['u', 'r', 'i'] ['c', 'n', 'o'] hr rfl rfl (by decide)⟩
            · exact ⟨fun ⟨r, hr⟩ => take3_clash ['r', 'e', 's'] ['q', 'o', 'p'] hr rfl rfl (by decide),
                     fun ⟨r, hr⟩ => take3_clash ['r', 'e', 's'] ['n', 'c', '='] hr rfl rfl (by decide),
                     fun ⟨r, hr⟩ => take3_clash ['r', 'e', 's'] ['c', 'n', 'o'] hr rfl rfl (by decide)⟩
          · rcases hO : p.challenge.opaq with _ | o
            · rw [hO] at hpart
              exact absurd hpart (List.not_mem_nil part)
            · rw [hO] at hpart
              by_cases ho : o = ""
              · simp [ho] at hpart
              · simp only [ho, ne_eq, not_false_eq_true, if_true, List.mem_singleton] at hpart
                subst hpart
                exact ⟨fun ⟨r, hr⟩ => take3_clash ['o', 'p', 'a'] ['q', 'o', 'p'] hr rfl rfl (by decide),
                       fun ⟨r, hr⟩ => take3_clash ['o', 'p', 'a'] ['n', 'c', '='] hr rfl rfl (by decide),
                       fun ⟨r, hr⟩ => take3_clash ['o', 'p', 'a'] ['c', 'n', 'o'] hr rfl rfl (by decide)⟩
        · rcases hC : p.challenge.charset with _ | cs
          · rw [hC] at hpart
            exact absurd hpart (List.not_mem_nil part)
          · rw [hC] at hpart
            by_cases hcs : cs = ""
            · simp [hcs] at hpart
            · simp only [hcs, ne_eq, not_false_eq_true, if_true, List.mem_singleton] at hpart
              subst hpart
              exact ⟨fun ⟨r, hr⟩ => take3_clash ['c', 'h', 'a'] ['q', 'o', 'p'] hr rfl rfl (by decide),
                     fun ⟨r, hr⟩ => take3_clash ['c', 'h', 'a'] ['n', 'c', '='] hr rfl rfl (by decide),
                     fun ⟨r, hr⟩ => take3_clash ['c', 'h', 'a'] ['c', 'n', 'o'] hr rfl rfl (by decide)⟩
      · rcases hA : p.challenge.algorithm with _ | a
        · rw [hA] at hpart
          exact absurd hpart (List.not_mem_nil part)
        · rw [hA] at hpart
          by_cases ha : a = ""
          · simp [ha] at hpart
          · simp only [ha, ne_eq, not_false_eq_true, if_true, List.mem_singleton] at hpart
            subst hpart
            exact ⟨fun ⟨r, hr⟩ => take3_clash ['a', 'l', 'g'] ['q', 'o', 'p'] hr rfl rfl (by decide),
                   fun ⟨r, hr⟩ => take3_clash ['a', 'l', 'g'] ['n', 'c', '='] hr rfl rfl (by decide),
                   fun ⟨r, hr⟩ => take3_clash ['a', 'l', 'g'] ['c', 'n', 'o'] hr rfl rfl (by decide)⟩

/-- The qop auth challenge used by the digest counterexample and witness. -/
def c4challenge : DigestChallenge :=
  { realm := some "PTS", nonce := some "abc", qop := some "auth" }

/-- C4 counterexample: at nonce count 16^8 the formatted nonce count is the
nine digit string 100000000, not exactly eight lowercase hex digits, and the
emitted header parts carry it verbatim. -/
theorem C4_nc_nine_digits :
    formatNc (16 ^ 8) = "100000000" ∧ (formatNc (16 ^ 8)).length = 9 ∧
    ("nc=" ++ formatNc (16 ^ 8)) ∈ digestAuthParts hashIdent "cn"
      { username := "u", password := "pw", method := "POST", uri := "/jsonPTS",
        challenge := c4challenge, nc := 16 ^ 8 } := by
  refine ⟨rfl, rfl, ?_⟩
  exact List.mem_append_right _ (by decide)

/-- C4 witness: the amended theorem applies at nonce count 1 with the qop auth
challenge. -/
theorem C4_digest_response_witness :
    ("qop=" ++ "auth") ∈ digestAuthParts hashIdent "cn"
      { username := "u", password := "pw", method := "POST", uri := "/jsonPTS",
        challenge := c4challenge, nc := 1 } ∧
    (formatNc 1).length = 8 :=
  ⟨((C4_digest_response hashIdent "cn"
      { username := "u", password := "pw", method := "POST", uri := "/jsonPTS",
        challenge := c4challenge, nc := 1 } (by norm_num)).2.1 "auth" rfl).2.1,
   (C4_digest_response hashIdent "cn"
      { username := "u", password := "pw", method := "POST", uri := "/jsonPTS",
        challenge := c4challenge, nc := 1 } (by norm_num)).1.1⟩

/-! ## C8: which headers parse as Digest challenges -/

theorem dropWhile_append_all {p : α → Bool} {l1 l2 : List α} (h : ∀ a ∈ l1, p a) :
    (l1 ++ l2).dropWhile p = l2.dropWhile p := by
  induction l1 with
  | nil => rfl
  | cons a rest ih =>
    have ha : p a = true := h a (List.mem_cons_self a rest)
    simp only [List.cons_append, List.dropWhile_cons, ha, if_true]
    exact ih (fun b hb => h b (List.mem_cons_of_mem a hb))

theorem mem_takeWhile_sat {p : α → Bool} :
    ∀ {l : List α} {a : α}, a ∈ l.takeWhile p → p a = true := by
  intro l
  induction l with
  | nil => intro a ha; exact absurd ha (List.not_mem_nil a)
  | cons x rest ih =>
    intro a ha
    cases hx : p x with
    | true =>
      rw [List.takeWhile_cons, if_pos hx] at ha
      rcases List.mem_cons.mp ha with rfl | ha
      · exact hx
      · exact ih ha
    | false =>
      rw [List.takeWhile_cons, if_neg (by simp [hx])] at ha
      exact absurd ha (List.not_mem_nil a)

theorem digestWordCi_length {d : List Char} (h : digestWordCi d = true) : d.length = 6 := by
  unfold digestWordCi at h
  split at h
  · rename_i c0 c1 c2 c3 c4 c5
    rfl
  · exact Bool.noConfusion h

theorem digestWordCi_head {d : List Char} (h : digestWordCi d = true) :
    ∃ c0 t, d = c0 :: t ∧ jsSpace c0 = false := by
  unfold digestWordCi at h
  split at h
  · rename_i c0 c1 c2 c3 c4 c5
    refine ⟨c0, [c1, c2, c3, c4, c5], rfl, ?_⟩
    have hc0 : charCi c0 'd' 'D' = true := by
      simp only [Bool.and_eq_true] at h
      tauto
    have hdD : c0 = 'd' ∨ c0 = 'D' := by
      simpa [charCi] using hc0
    rcases hdD with rfl | rfl <;> decide
  · exact Bool.noConfusion h

/-- The headers the challenge regexp accepts: optional whitespace, the case
insensitive word Digest, at least one whitespace character, and a remainder
free of line terminators (the non-dotall dot cannot cross those). -/
def DigestHeaderShape (s : String) : Prop :=
  ∃ w1 d w2 r, s.data = w1 ++ d ++ w2 ++ r ∧
    (∀ c ∈ w1, jsSpace c = true) ∧ digestWordCi d = true ∧
    w2 ≠ [] ∧ (∀ c ∈ w2, jsSpace c = true) ∧ (∀ c ∈ r, jsLineTerm c = false)

theorem digestChallengeRest_some_inv {s : String} {rest : String}
    (h : digestChallengeRest s = some rest) : DigestHeaderShape s := by
  simp only [digestChallengeRest] at h
  by_cases hw : digestWordCi ((s.data.dropWhile jsSpace).take 6) = true
  · rw [if_pos hw] at h
    by_cases hcond : ((s.data.dropWhile jsSpace).drop 6).takeWhile jsSpace ≠ [] ∧
        (((s.data.dropWhile jsSpace).drop 6).dropWhile jsSpace).all
          (fun c => ! jsLineTerm c) = true
    · refine ⟨s.data.takeWhile jsSpace, (s.data.dropWhile jsSpace).take 6,
        ((s.data.dropWhile jsSpace).drop 6).takeWhile jsSpace,
        ((s.data.dropWhile jsSpace).drop 6).dropWhile jsSpace, ?_, ?_, hw, hcond.1, ?_, ?_⟩
      · calc s.data
            = s.data.takeWhile jsSpace ++ s.data.dropWhile jsSpace :=
              (List.takeWhile_append_dropWhile jsSpace s.data).symm
          _ = s.data.takeWhile jsSpace ++
                ((s.data.dropWhile jsSpace).take 6 ++ (s.data.dropWhile jsSpace).drop 6) := by
              rw [List.take_append_drop]
          _ = s.data.takeWhile jsSpace ++
                ((s.data.dropWhile jsSpace).take 6 ++
                 (((s.data.dropWhile jsSpace).drop 6).takeWhile jsSpace ++
                  ((s.data.dropWhile jsSpace).drop 6).dropWhile jsSpace)) := by
              rw [List.takeWhile_append_dropWhile]
          _ = s.data.takeWhile jsSpace ++ (s.data.dropWhile jsSpace).take 6 ++
                ((s.data.dropWhile jsSpace).drop 6).takeWhile jsSpace ++
                ((s.data.dropWhile jsSpace).drop 6).dropWhile jsSpace := by
              simp [List.append_assoc]
      · intro c hc
        exact mem_takeWhile_sat hc
      · intro c hc
        exact mem_takeWhile_sat hc
      · intro c hc
        have hall := List.all_eq_true.mp hcond.2 c hc
        simpa using hall
    · rw [if_neg hcond] at h
      exact Option.noConfusion h
  · rw [if_neg hw] at h
    exact Option.noConfusion h

theorem digestChallengeRest_of_shape {s : String} (h : DigestHeaderShape s) :
    ∃ rest, digestChallengeRest s = some rest := by
  rcases h with ⟨w1, d, w2, r, hs, hw1, hd, hw2ne, hw2, hr⟩
  have hlen : d.length = 6 := digestWordCi_length hd
  have hdrop : s.data.dropWhile jsSpace = d ++ (w2 ++ r) := by
    rcases digestWordCi_head hd with ⟨c0, t, hdC, hc0⟩
    rw [hs, List.append_assoc, List.append_assoc]
    rw [dropWhile_append_all hw1]
    rw [hdC, List.cons_append, List.dropWhile_cons, hc0]
    simp
  have htake : (s.data.dropWhile jsSpace).take 6 = d := by
    rw [hdrop, ← hlen, List.take_left]
  have hdrop6 : (s.data.dropWhile jsSpace).drop 6 = w2 ++ r := by
    rw [hdrop, ← hlen, List.drop_left]
  have hcond1 : ((s.data.dropWhile jsSpace).drop 6).takeWhile jsSpace ≠ [] := by
    rw [hdrop6]
    cases w2 with
    | nil => exact absurd rfl hw2ne
    | cons c t =>
      have hc : jsSpace c = true := hw2 c (List.mem_cons_self c t)
      simp [List.takeWhile_cons, hc]
  have hcond2 : (((s.data.dropWhile jsSpace).drop 6).dropWhile jsSpace).all
      (fun c => ! jsLineTerm c) = true := by
    rw [hdrop6, dropWhile_append_all hw2]
    rw [List.all_eq_true]
    intro c hc
    have hcr : c ∈ r := (List.dropWhile_sublist jsSpace).subset hc
    simp [hr c hcr]
  refine ⟨String.mk (((s.data.dropWhile jsSpace).drop 6).dropWhile jsSpace), ?_⟩
  simp only [digestChallengeRest]
  rw [htake, hd, if_pos rfl, if_pos ⟨hcond1, hcond2⟩]

/-- C8 (amended): parseDigestChallenge fails exactly when the header does not
consist of optional whitespace, the case-insensitive word Digest, at least one
whitespace character, and a remainder free of line terminators; every header
of that shape yields a parsed attribute set without error.  (The bare token
Digest with no trailing whitespace is rejected.) -/
theorem C8_digest_prefix_iff (s : String) :
    exceptIsOk (parseDigestChallenge s) = true ↔ DigestHeaderShape s := by
  constructor
  · intro hok
    unfold parseDigestChallenge at hok
    cases hm : digestChallengeRest s with
    | none => rw [hm] at hok; exact Bool.noConfusion hok
    | some rest => exact digestChallengeRest_some_inv hm
  · intro hshape
    rcases digestChallengeRest_of_shape hshape with ⟨rest, hm⟩
    unfold parseDigestChallenge
    rw [hm]
    rfl

/-- C8 counterexample: the header consisting of exactly the token Digest does
start with the case-insensitive token Digest, yet parsing fails, because the
regexp requires at least one whitespace character after the word. -/
theorem C8_bare_digest_rejected :
    parseDigestChallenge "Digest" = .error "Not a Digest challenge" := rfl

/-! ## C2: the digest challenge-response cycle -/

/-- C2 (amended): with digest auth on a fresh client (nonce count 0), every
call performs exactly one unauthenticated POST first and at most two POSTs in
total; a second POST happens if and only if the first one returned 401 with a
WWW-Authenticate header that parses as a Digest challenge, and then the nonce
count is incremented to 1 and the retry carries the Authorization header built
from the parsed challenge with nonce count 1, formatted 00000001; a 401
without a WWW-Authenticate header raises an error with no retry; a 401 whose
header is not a Digest challenge raises the parse error with no retry and no
nonce count increment. -/
theorem C2_digest_retry (cfg : Pts2Config) (hashRaw : String → String → String)
    (cnonce : String) (resp : Nat → TransportResp) (body : Json)
    (hauth : cfg.auth = "digest") :
    ((postWithAuth cfg hashRaw cnonce 0 resp body).2.2.length ≤ 2) ∧
    ((postWithAuth cfg hashRaw cnonce 0 resp body).2.2.head? = some ⟨body, none⟩) ∧
    (((postWithAuth cfg hashRaw cnonce 0 resp body).2.2.filter
        (fun c => c.authorization.isNone)).length = 1) ∧
    ((postWithAuth cfg hashRaw cnonce 0 resp body).2.2.length = 2 ↔
      ∃ w ch, resp 0 = .unauthorized (some w) ∧ parseDigestChallenge w = .ok ch) ∧
    (∀ w ch, resp 0 = .unauthorized (some w) → parseDigestChallenge w = .ok ch →
      postWithAuth cfg hashRaw cnonce 0 resp body =
        (postJsonOutcome (resp 1), 1,
         [⟨body, none⟩,
          ⟨body, some (buildDigestAuthorization hashRaw cnonce
            { username := cfg.login, password := cfg.password, method := "POST",
              uri := "/jsonPTS", challenge := ch, nc := 1 })⟩])) ∧
    (formatNc 1 = "00000001") ∧
    (resp 0 = .unauthorized none →
      postWithAuth cfg hashRaw cnonce 0 resp body =
        (.error "401 without WWW-Authenticate header", 0, [⟨body, none⟩])) := by
  have hbasic : (cfg.auth = "basic") = False := by simp [hauth]
  simp only [postWithAuth, hbasic, if_false]
  cases h0 : resp 0 with
  | err m =>
    refine ⟨by simp, by simp, by simp, ?_, ?_, rfl, ?_⟩
    · constructor
      · intro hl; simp at hl
      · rintro ⟨w, ch, hw, _⟩; exact TransportResp.noConfusion hw
    · intro w ch hw _; exact TransportResp.noConfusion hw
    · intro hw; exact TransportResp.noConfusion hw
  | ok j =>
    refine ⟨by simp, by simp, by simp, ?_, ?_, rfl, ?_⟩
    · constructor
      · intro hl; simp at hl
      · rintro ⟨w, ch, hw, _⟩; exact TransportResp.noConfusion hw
    · intro w ch hw _; exact TransportResp.noConfusion hw
    · intro hw; exact TransportResp.noConfusion hw
  | unauthorized wopt =>
    cases wopt with
    | none =>
      refine ⟨by simp, by simp, by simp, ?_, ?_, rfl, ?_⟩
      · constructor
        · intro hl; simp at hl
        · rintro ⟨w, ch, hw, _⟩
          injection hw with hw2
          exact Option.noConfusion hw2
      · intro w ch hw _
        injection hw with hw2
        exact Option.noConfusion hw2
      · intro _; rfl
    | some wv =>
      cases hpc : parseDigestChallenge wv with
      | error e =>
        simp only [hpc]
        refine ⟨by simp, by simp, by simp, ?_, ?_, rfl, ?_⟩
        · constructor
          · intro hl; simp at hl
          · rintro ⟨w, ch, hw, hch⟩
            injection hw with hw2
            injection hw2 with hw3
            rw [← hw3] at hch
            rw [hpc] at hch
            exact Except.noConfusion hch
        · intro w ch hw hch
          injection hw with hw2
          injection hw2 with hw3
          rw [← hw3] at hch
          rw [hpc] at hch
          exact Except.noConfusion hch
        · intro hw
          injection hw with hw2
          exact Option.noConfusion hw2
      | ok ch0 =>
        simp only [hpc]
        refine ⟨by simp, by simp, by simp, ?_, ?_, rfl, ?_⟩
        · constructor
          · intro _; exact ⟨wv, ch0, rfl, hpc⟩
          · intro _; simp
        · intro w ch hw hch
          injection hw with hw2
          injection hw2 with hw3
          rw [← hw3] at hch
          rw [hpc] at hch
          injection hch with hch2
          rw [← hch2]
        · intro hw
          injection hw with hw2
          exact Option.noConfusion hw2

/-- The configuration used by the retry witness: digest auth, fresh client. -/
def c2cfg : Pts2Config :=
  { host := "192.168.1.117", security := "https", httpPort := 80, httpsPort := 443,
    auth := "digest", login := "admin", password := "admin", timeoutMs := 15000,
    tlsInsecure := true }

/-- The challenge header returned by the witness transport on the first POST. -/
def c2header : String := "Digest realm=\"PTS2\", nonce=\"abc\", qop=\"auth\""

/-- The parse of that challenge header. -/
def c2challengeParsed : DigestChallenge :=
  { realm := some "PTS2", nonce := some "abc", qop := some "auth" }

/-- A clean empty response envelope. -/
def c2okBody : Json := .obj [("Protocol", .str "jsonPTS"), ("Packets", .arr [])]

/-- A transport answering 401 with the Digest challenge first, then 200. -/
def c2resp : Nat → TransportResp := fun n =>
  if n = 0 then .unauthorized (some c2header) else .ok c2okBody

/-- The GetDateTime envelope sent by the witness call. -/
def c2body : Json := buildEnvelope [{ type := "GetDateTime" }]

/-- C2 witness: on the 401-then-200 transport the amended theorem yields the
two-POST trace with nonce count 1 and the retry Authorization header. -/
theorem C2_digest_retry_witness :
    postWithAuth c2cfg hashIdent "cn" 0 c2resp c2body =
      (postJsonOutcome (c2resp 1), 1,
       [⟨c2body, none⟩,
        ⟨c2body, some (buildDigestAuthorization hashIdent "cn"
          { username := c2cfg.login, password := c2cfg.password, method := "POST",
            uri := "/jsonPTS", challenge := c2challengeParsed, nc := 1 })⟩]) ∧
    formatNc 1 = "00000001" :=
  ⟨(C2_digest_retry c2cfg hashIdent "cn" c2resp c2body rfl).2.2.2.2.1 c2header
     c2challengeParsed rfl rfl,
   (C2_digest_retry c2cfg hashIdent "cn" c2resp c2body rfl).2.2.2.2.2.1⟩

/-- C2 counterexample: a 401 whose WWW-Authenticate header is present but not
a Digest challenge yields an error after a single POST and no nonce-count
increment, refuting the claim that any 401 with a WWW-Authenticate header
leads to a retry. -/
theorem C2_basic_challenge_no_retry :
    postWithAuth c2cfg hashIdent "cn" 0
      (fun n => if n = 0 then .unauthorized (some "Basic realm=\"x\"") else .ok c2okBody)
      c2body =
      (.error "Not a Digest challenge", 0, [⟨c2body, none⟩]) := rfl
